import Mathlib

/-!
Verification of the document merge engine and template selector of the
k8-mutating-webhook repository (webhook-server-lib).

The embedding translates the source files
  src/webhook-server-lib/src/resource.rs
  src/webhook-server-lib/src/templates.rs
into Lean definitions:

* `JValue` embeds `serde_json::Value`, `YValue` embeds `serde_yaml::Value`.
  Numbers are modelled as `Int` (the merge algorithm never inspects the
  numeric payload, it only clones it; non-finite floats, the only numeric
  conversion failure of `convert_number_to_json`, fall outside this model).
* The ordered map types of the source (`serde_json::Map`,
  `serde_yaml::Mapping`, `BTreeMap<String, String>`) are embedded as
  association lists with first-match lookup (`alookup`), `contains_key`
  (`acontains`) and overwrite-or-append `insert` (`ainsert`).  The source's
  map types keep their keys unique; theorems that need this invariant take
  it as a `Nodup` hypothesis on the key list.
* `Resource`, `ObjectMeta`, `Template` and `Templates` follow the structs
  of the source, with the Rust field `namespace` rendered as `namespace_`
  (`namespace` is a Lean keyword).
-/

/-- First-match lookup in the association-list embedding of the source's
ordered map types (`Map::get` / `Mapping::get` / `BTreeMap::get`). -/
def alookup {κ α : Type} [DecidableEq κ] : List (κ × α) → κ → Option α
  | [], _ => none
  | p :: rest, k => if p.1 = k then some p.2 else alookup rest k

/-- Embeds `contains_key` of the map embedding. -/
def acontains {κ α : Type} [DecidableEq κ] (m : List (κ × α)) (k : κ) : Bool :=
  (alookup m k).isSome

/-- Embeds `insert` of the source's map types: overwrite the entry in place when
the key is already present, append a fresh entry otherwise.  (The claims
about the maps are extensional, so the placement of a fresh entry does not
matter.) -/
def ainsert {κ α : Type} [DecidableEq κ] (m : List (κ × α)) (k : κ) (v : α) :
    List (κ × α) :=
  if acontains m k then m.map (fun p => if p.1 = k then (k, v) else p)
  else m ++ [(k, v)]

theorem alookup_nil {κ α : Type} [DecidableEq κ] (k : κ) :
    alookup ([] : List (κ × α)) k = none := rfl

theorem alookup_cons {κ α : Type} [DecidableEq κ] (p : κ × α) (rest : List (κ × α)) (k : κ) :
    alookup (p :: rest) k = if p.1 = k then some p.2 else alookup rest k := rfl

theorem alookup_append {κ α : Type} [DecidableEq κ] (l1 l2 : List (κ × α)) (k : κ) :
    alookup (l1 ++ l2) k =
      match alookup l1 k with
      | some v => some v
      | none => alookup l2 k := by
  induction l1 with
  | nil => simp [alookup]
  | cons p rest ih =>
      by_cases h : p.1 = k <;> simp [alookup_cons, h, ih]

theorem alookup_map_overwrite {κ α : Type} [DecidableEq κ] (m : List (κ × α))
    (k k1 : κ) (v : α) (hne : k1 ≠ k) :
    alookup (m.map fun p => if p.1 = k then (k, v) else p) k1 = alookup m k1 := by
  induction m with
  | nil => simp [alookup]
  | cons p rest ih =>
      simp only [List.map_cons, alookup_cons]
      by_cases h : p.1 = k
      · rw [if_pos h]
        rw [if_neg (show ¬((k, v).1 = k1) from fun hk => hne hk.symm), ih]
        rw [if_neg (show ¬(p.1 = k1) from by rw [h]; exact fun hk => hne hk.symm)]
      · rw [if_neg h]
        by_cases h2 : p.1 = k1
        · rw [if_pos h2, if_pos h2]
        · rw [if_neg h2, if_neg h2, ih]

theorem alookup_map_overwrite_self {κ α : Type} [DecidableEq κ] (m : List (κ × α))
    (k : κ) (v : α) (hc : acontains m k = true) :
    alookup (m.map fun p => if p.1 = k then (k, v) else p) k = some v := by
  induction m with
  | nil => simp [acontains, alookup] at hc
  | cons p rest ih =>
      by_cases h : p.1 = k
      · simp [alookup_cons, h]
      · have hc2 : acontains rest k = true := by
          simpa [acontains, alookup_cons, h] using hc
        simp [alookup_cons, h, ih hc2]

theorem alookup_ainsert_self {κ α : Type} [DecidableEq κ] (m : List (κ × α))
    (k : κ) (v : α) : alookup (ainsert m k v) k = some v := by
  unfold ainsert
  by_cases hc : acontains m k
  · simp [hc, alookup_map_overwrite_self m k v hc]
  · have hnone : alookup m k = none := by
      cases h : alookup m k with
      | none => rfl
      | some w => exact absurd (by simp [acontains, h]) hc
    simp [hc, alookup_append, hnone, alookup_cons]

theorem alookup_ainsert_ne {κ α : Type} [DecidableEq κ] (m : List (κ × α))
    (k k1 : κ) (v : α) (hne : k1 ≠ k) :
    alookup (ainsert m k v) k1 = alookup m k1 := by
  unfold ainsert
  by_cases hc : acontains m k
  · simp [hc, alookup_map_overwrite m k k1 v hne]
  · rw [if_neg hc, alookup_append]
    cases h : alookup m k1 with
    | none =>
        show alookup [(k, v)] k1 = none
        rw [alookup_cons, if_neg (show ¬((k, v).1 = k1) from fun hk => hne hk.symm)]
        rfl
    | some w => rfl

theorem alookup_ainsert {κ α : Type} [DecidableEq κ] (m : List (κ × α))
    (k k1 : κ) (v : α) :
    alookup (ainsert m k v) k1 = if k1 = k then some v else alookup m k1 := by
  by_cases h : k1 = k
  · subst h; simp [alookup_ainsert_self]
  · simp [h, alookup_ainsert_ne m k k1 v h]

theorem alookup_eq_none {κ α : Type} [DecidableEq κ] (l : List (κ × α)) (k : κ)
    (h : k ∉ l.map Prod.fst) : alookup l k = none := by
  induction l with
  | nil => rfl
  | cons p rest ih =>
      simp only [List.map_cons, List.mem_cons] at h
      push_neg at h
      rw [alookup_cons, if_neg (fun he => h.1 he.symm), ih h.2]

theorem alookup_foldl_ainsert {κ α : Type} [DecidableEq κ] (l acc : List (κ × α))
    (k : κ) (h : (l.map Prod.fst).Nodup) :
    alookup (l.foldl (fun a p => ainsert a p.1 p.2) acc) k =
      match alookup l k with
      | some v => some v
      | none => alookup acc k := by
  induction l generalizing acc with
  | nil => simp [alookup_nil]
  | cons p rest ih =>
      simp only [List.map_cons, List.nodup_cons] at h
      simp only [List.foldl_cons]
      rw [ih _ h.2]
      by_cases hk : p.1 = k
      · have hrest : alookup rest k = none := alookup_eq_none rest k (hk ▸ h.1)
        rw [hrest, alookup_cons, if_pos hk]
        show alookup (ainsert acc p.1 p.2) k = some p.2
        rw [← hk]
        exact alookup_ainsert_self acc p.1 p.2
      · rw [alookup_cons, if_neg hk]
        cases h2 : alookup rest k with
        | some v => rfl
        | none =>
            show alookup (ainsert acc p.1 p.2) k = alookup acc k
            exact alookup_ainsert_ne acc p.1 k p.2 (fun he => hk he.symm)

theorem alookup_foldl_guarded {κ α : Type} [DecidableEq κ] (l acc : List (κ × α))
    (k : κ) :
    alookup (l.foldl
        (fun a p => if acontains a p.1 then a else ainsert a p.1 p.2) acc) k =
      match alookup acc k with
      | some v => some v
      | none => alookup l k := by
  induction l generalizing acc with
  | nil => cases h2 : alookup acc k <;> simp [h2, alookup_nil]
  | cons p rest ih =>
      simp only [List.foldl_cons]
      by_cases hc : acontains acc p.1
      · rw [if_pos hc, ih]
        cases h2 : alookup acc k with
        | some v => rfl
        | none =>
            have hne : ¬(p.1 = k) := by
              intro he
              rw [acontains, he, h2] at hc
              simp at hc
            show alookup rest k = alookup (p :: rest) k
            rw [alookup_cons, if_neg hne]
      · rw [if_neg hc, ih]
        by_cases hk : k = p.1
        · have h1 : alookup (ainsert acc p.1 p.2) k = some p.2 := by
            rw [hk]
            exact alookup_ainsert_self acc p.1 p.2
          have hacc : alookup acc k = none := by
            cases h2 : alookup acc k with
            | none => rfl
            | some w => exact absurd (by simp [acontains, ← hk, h2]) hc
          rw [h1, hacc]
          show some p.2 = alookup (p :: rest) k
          rw [alookup_cons, if_pos hk.symm]
        · rw [alookup_ainsert_ne acc p.1 k p.2 hk]
          cases h2 : alookup acc k with
          | some v => rfl
          | none =>
              show alookup rest k = alookup (p :: rest) k
              rw [alookup_cons, if_neg (fun he => hk he.symm)]

theorem alookup_map_entries {κ α β : Type} [DecidableEq κ] (l : List (κ × α))
    (g : κ × α → β) (k : κ) :
    alookup (l.map fun p => (p.1, g p)) k =
      match l.find? (fun p => decide (p.1 = k)) with
      | some p => some (g p)
      | none => none := by
  induction l with
  | nil => rfl
  | cons p rest ih =>
      simp only [List.map_cons, alookup_cons, List.find?_cons]
      by_cases hk : p.1 = k <;> simp [hk, ih]

theorem alookup_eq_find {κ α : Type} [DecidableEq κ] (l : List (κ × α)) (k : κ) :
    alookup l k =
      match l.find? (fun p => decide (p.1 = k)) with
      | some p => some p.2
      | none => none := by
  induction l with
  | nil => rfl
  | cons p rest ih =>
      simp only [alookup_cons, List.find?_cons]
      by_cases hk : p.1 = k <;> simp [hk, ih]

theorem find_key_eq {κ α : Type} [DecidableEq κ] {l : List (κ × α)} {k : κ}
    {p : κ × α} (h : l.find? (fun q => decide (q.1 = k)) = some p) : p.1 = k := by
  have h2 := List.find?_some h
  simpa using h2

/-- The JSON value form, embedding `serde_json::Value`
(variants Null, Bool, Number, String, Array, Object). -/
inductive JValue where
  | null
  | bool (b : Bool)
  | number (n : Int)
  | string (s : String)
  | array (vs : List JValue)
  | object (kvs : List (String × JValue))

/-- The YAML value form, embedding `serde_yaml::Value`
(variants Null, Bool, Number, String, Sequence, Mapping, Tagged; a Tagged
value carries a tag and a wrapped value). -/
inductive YValue where
  | null
  | bool (b : Bool)
  | number (n : Int)
  | string (s : String)
  | sequence (vs : List YValue)
  | mapping (kvs : List (YValue × YValue))
  | tagged (tag : String) (v : YValue)

mutual

/-- Structural equality of YAML values
(the `PartialEq` used by `serde_yaml::Mapping::get`). -/
def YValue.beq : YValue → YValue → Bool
  | .null, .null => true
  | .bool a, .bool b => a == b
  | .number a, .number b => a == b
  | .string a, .string b => a == b
  | .sequence a, .sequence b => YValue.beqList a b
  | .mapping a, .mapping b => YValue.beqPairs a b
  | .tagged t1 v1, .tagged t2 v2 => t1 == t2 && YValue.beq v1 v2
  | _, _ => false
  termination_by a _ => sizeOf a

def YValue.beqList : List YValue → List YValue → Bool
  | [], [] => true
  | a :: as, b :: bs => YValue.beq a b && YValue.beqList as bs
  | _, _ => false
  termination_by a _ => sizeOf a

def YValue.beqPairs : List (YValue × YValue) → List (YValue × YValue) → Bool
  | [], [] => true
  | (k1, v1) :: as, (k2, v2) :: bs =>
      YValue.beq k1 k2 && YValue.beq v1 v2 && YValue.beqPairs as bs
  | _, _ => false
  termination_by a _ => sizeOf a

end

mutual

theorem YValue.beq_iff : ∀ (a b : YValue), (YValue.beq a b = true) ↔ a = b
  | .null, b => by cases b <;> simp [YValue.beq]
  | .bool x, b => by cases b <;> simp [YValue.beq]
  | .number x, b => by cases b <;> simp [YValue.beq]
  | .string x, b => by cases b <;> simp [YValue.beq]
  | .sequence as, b => by
      cases b with
      | sequence bs => simp [YValue.beq, YValue.beqList_iff as bs]
      | null => simp [YValue.beq]
      | bool x => simp [YValue.beq]
      | number x => simp [YValue.beq]
      | string x => simp [YValue.beq]
      | mapping x => simp [YValue.beq]
      | tagged t v => simp [YValue.beq]
  | .mapping as, b => by
      cases b with
      | mapping bs => simp [YValue.beq, YValue.beqPairs_iff as bs]
      | null => simp [YValue.beq]
      | bool x => simp [YValue.beq]
      | number x => simp [YValue.beq]
      | string x => simp [YValue.beq]
      | sequence x => simp [YValue.beq]
      | tagged t v => simp [YValue.beq]
  | .tagged t1 v1, b => by
      cases b with
      | tagged t2 v2 => simp [YValue.beq, YValue.beq_iff v1 v2]
      | null => simp [YValue.beq]
      | bool x => simp [YValue.beq]
      | number x => simp [YValue.beq]
      | string x => simp [YValue.beq]
      | sequence x => simp [YValue.beq]
      | mapping x => simp [YValue.beq]
  termination_by a _ => sizeOf a

theorem YValue.beqList_iff :
    ∀ (as bs : List YValue), (YValue.beqList as bs = true) ↔ as = bs
  | [], bs => by cases bs <;> simp [YValue.beqList]
  | a :: as, bs => by
      cases bs with
      | nil => simp [YValue.beqList]
      | cons b bs => simp [YValue.beqList, YValue.beq_iff a b, YValue.beqList_iff as bs]
  termination_by as _ => sizeOf as

theorem YValue.beqPairs_iff :
    ∀ (as bs : List (YValue × YValue)), (YValue.beqPairs as bs = true) ↔ as = bs
  | [], bs => by cases bs <;> simp [YValue.beqPairs]
  | (k1, v1) :: as, bs => by
      cases bs with
      | nil => simp [YValue.beqPairs]
      | cons p bs =>
          obtain ⟨k2, v2⟩ := p
          simp [YValue.beqPairs, YValue.beq_iff k1 k2, YValue.beq_iff v1 v2,
            YValue.beqPairs_iff as bs, and_assoc]
  termination_by as _ => sizeOf as

end

instance : DecidableEq YValue :=
  fun a b => decidable_of_iff (YValue.beq a b = true) (YValue.beq_iff a b)

/-- Embeds `Resource<serde_json::Value>::construct_array_wrapper` (resource.rs). -/
def JValue.construct_array_wrapper (array : List JValue) : JValue :=
  .array array

/-- Embeds `Resource<serde_yaml::Value>::construct_array_wrapper` (resource.rs). -/
def YValue.construct_array_wrapper (array : List YValue) : YValue :=
  .sequence array

/-- Embeds `merge_arrays` (resource.rs): copy the first vector element by element,
push every element of the second after it, and wrap the result. -/
def merge_arrays {T : Type} (first second : List T)
    (construct_array_wrapper : List T → T) : T :=
  construct_array_wrapper
    (second.foldl (fun acc v => acc ++ [v])
      (first.foldl (fun acc v => acc ++ [v]) []))

/-- Embeds `merge_value_into_array` (resource.rs): merge the single value into
every element of the vector. -/
def merge_value_into_array {T : Type} (vec : List T) (value : T)
    (merge_values : T → T → T) (construct_array_wrapper : List T → T) : T :=
  construct_array_wrapper (vec.map fun item => merge_values item value)

/-- Embeds `Resource<serde_json::Value>::merge_object_maps` and (same body, keyed
by YAML values instead of strings) `Resource<serde_yaml::Value>::merge_mappings`
(resource.rs): insert every key of `first` (value merged with the matching
value of `second` when there is one), then add every key of `second` not
already present. -/
def merge_object_maps {κ α : Type} [DecidableEq κ] (first second : List (κ × α))
    (merge_values : α → α → α) : List (κ × α) :=
  second.foldl
    (fun acc p => if acontains acc p.1 then acc else ainsert acc p.1 p.2)
    (first.foldl (fun acc p =>
      ainsert acc p.1
        (((alookup second p.1).map fun v2 => merge_values p.2 v2).getD p.2)) [])

/-- Embeds `Resource<serde_json::Value>::merge_values` (resource.rs lines 83-106),
match arms in source order.  The recursive arms (broadcast of a value into
an array, and the object-map merge) are written with `List.attach` so that
the termination argument can see the element membership; the lemmas
`jvalue_merge_array_other` and `jvalue_merge_object_object` below restate
them through `merge_value_into_array` and `merge_object_maps`. -/
def JValue.merge_values : JValue → JValue → JValue
  | .bool b1, .bool _ => .bool b1
  | .number n1, .number _ => .number n1
  | .string s1, .string _ => .string s1
  | .array vec1, .array vec2 => merge_arrays vec1 vec2 JValue.construct_array_wrapper
  | .array vec, second =>
      JValue.construct_array_wrapper
        (vec.attach.map fun item => JValue.merge_values item.val second)
  | .object map1, .object map2 =>
      .object (map2.foldl
        (fun acc q => if acontains acc q.1 then acc else ainsert acc q.1 q.2)
        ((map1.attach.map fun p =>
          (p.val.1, ((alookup map2 p.val.1).map fun v2 =>
              JValue.merge_values p.val.2 v2).getD p.val.2)).foldl
          (fun acc q => ainsert acc q.1 q.2) []))
  | .null, second => second
  | first, .null => first
  | first, _ => first
  termination_by a _ => sizeOf a
  decreasing_by
  · have := List.sizeOf_lt_of_mem item.property
    simp only [JValue.array.sizeOf_spec]
    omega
  · obtain ⟨⟨k, v⟩, hp⟩ := p
    have := List.sizeOf_lt_of_mem hp
    simp only [JValue.object.sizeOf_spec, Prod.mk.sizeOf_spec] at this ⊢
    omega

/-- Embeds `Resource<serde_yaml::Value>::merge_values` (resource.rs lines 144-165),
match arms in source order.  Note: unlike the JSON form, there is no
`(Sequence, _)` broadcast arm; such pairs fall through to the final
catch-all arm. -/
def YValue.merge_values : YValue → YValue → YValue
  | .bool b1, .bool _ => .bool b1
  | .number n1, .number _ => .number n1
  | .string s1, .string _ => .string s1
  | .sequence seq1, .sequence seq2 =>
      merge_arrays seq1 seq2 YValue.construct_array_wrapper
  | .mapping map1, .mapping map2 =>
      .mapping (map2.foldl
        (fun acc q => if acontains acc q.1 then acc else ainsert acc q.1 q.2)
        ((map1.attach.map fun p =>
          (p.val.1, ((alookup map2 p.val.1).map fun v2 =>
              YValue.merge_values p.val.2 v2).getD p.val.2)).foldl
          (fun acc q => ainsert acc q.1 q.2) []))
  | .tagged tag1 v1, .tagged _ _ => .tagged tag1 v1
  | .null, second => second
  | first, .null => first
  | first, _ => first
  termination_by a _ => sizeOf a
  decreasing_by
  · obtain ⟨⟨k, v⟩, hp⟩ := p
    have := List.sizeOf_lt_of_mem hp
    simp only [YValue.mapping.sizeOf_spec, Prod.mk.sizeOf_spec] at this ⊢
    omega

theorem foldl_push_eq_append {T : Type} (l init : List T) :
    l.foldl (fun acc v => acc ++ [v]) init = init ++ l := by
  induction l generalizing init with
  | nil => simp
  | cons v rest ih => simp [List.foldl_cons, ih]

theorem merge_arrays_eq_append {T : Type} (first second : List T)
    (construct_array_wrapper : List T → T) :
    merge_arrays first second construct_array_wrapper =
      construct_array_wrapper (first ++ second) := by
  unfold merge_arrays
  rw [foldl_push_eq_append, foldl_push_eq_append]
  rw [List.nil_append]

theorem jvalue_merge_array_other (vec : List JValue) (x : JValue)
    (hx : ∀ vs, x ≠ JValue.array vs) :
    JValue.merge_values (.array vec) x =
      merge_value_into_array vec x JValue.merge_values JValue.construct_array_wrapper := by
  have key : ∀ (y : JValue),
      (JValue.construct_array_wrapper
        (vec.attach.map fun item => JValue.merge_values item.val y)) =
      merge_value_into_array vec y JValue.merge_values JValue.construct_array_wrapper := by
    intro y
    unfold merge_value_into_array JValue.construct_array_wrapper
    rw [List.attach_map_val vec (fun item => JValue.merge_values item y)]
  cases x with
  | array vs => exact absurd rfl (hx vs)
  | null =>
      rw [JValue.merge_values]
      · exact key .null
      · intro vec2 h
        exact JValue.noConfusion h
  | bool b =>
      rw [JValue.merge_values]
      · exact key (.bool b)
      · intro vec2 h
        exact JValue.noConfusion h
  | number n =>
      rw [JValue.merge_values]
      · exact key (.number n)
      · intro vec2 h
        exact JValue.noConfusion h
  | string s =>
      rw [JValue.merge_values]
      · exact key (.string s)
      · intro vec2 h
        exact JValue.noConfusion h
  | object kvs =>
      rw [JValue.merge_values]
      · exact key (.object kvs)
      · intro vec2 h
        exact JValue.noConfusion h

theorem jvalue_merge_object_object (map1 map2 : List (String × JValue)) :
    JValue.merge_values (.object map1) (.object map2) =
      .object (merge_object_maps map1 map2 JValue.merge_values) := by
  rw [JValue.merge_values]
  unfold merge_object_maps
  congr 1
  rw [List.attach_map_val map1 (fun p =>
    (p.1, ((alookup map2 p.1).map fun v2 =>
        JValue.merge_values p.2 v2).getD p.2))]
  rw [List.foldl_map]

theorem yvalue_merge_mapping_mapping (map1 map2 : List (YValue × YValue)) :
    YValue.merge_values (.mapping map1) (.mapping map2) =
      .mapping (merge_object_maps map1 map2 YValue.merge_values) := by
  rw [YValue.merge_values]
  unfold merge_object_maps
  congr 1
  rw [List.attach_map_val map1 (fun p =>
    (p.1, ((alookup map2 p.1).map fun v2 =>
        YValue.merge_values p.2 v2).getD p.2))]
  rw [List.foldl_map]

/-- Embeds `MapType = BTreeMap<String, String>` (resource.rs line 6), embedded as
an association list with unique keys. -/
abbrev MapType : Type := List (String × String)

/-- Embeds `ObjectMeta` (resource.rs lines 11-16).  The Rust field `namespace` is
rendered `namespace_` because `namespace` is a Lean keyword. -/
structure ObjectMeta where
  name : Option String
  namespace_ : Option String
  labels : Option MapType
  annotations : Option MapType
  deriving DecidableEq

/-- Embeds `Resource<T>` (resource.rs lines 34-39). -/
structure Resource (T : Type) where
  api_version : String
  kind : String
  metadata : Option ObjectMeta
  spec : Option T
  deriving DecidableEq

/-- Embeds `merge_maps` (resource.rs lines 264-273): when both sides are present,
start from a copy of the second map and insert every entry of the first
(so the first wins on key conflicts); when one side is absent the other is
used as-is. -/
def merge_maps : Option MapType → Option MapType → Option MapType
  | some f, some s => some (f.foldl (fun acc p => ainsert acc p.1 p.2) s)
  | some f, none => some f
  | none, second => second

/-- Embeds `merge_meta` (resource.rs lines 251-262): name and namespace always
from the first; labels and annotations merged by `merge_maps`; when one
side is absent the other is used as-is. -/
def merge_meta : Option ObjectMeta → Option ObjectMeta → Option ObjectMeta
  | some f, some s =>
      some { name := f.name
             namespace_ := f.namespace_
             labels := merge_maps f.labels s.labels
             annotations := merge_maps f.annotations s.annotations }
  | some f, none => some f
  | none, second => second

/-- Embeds `merge_opt_values` (resource.rs lines 275-281). -/
def merge_opt_values {T : Type} (first second : Option T)
    (merge_values : T → T → T) : Option T :=
  match first, second with
  | some v1, some v2 => some (merge_values v1 v2)
  | some v1, none => some v1
  | none, second => second

/-- Embeds `Resource::internal_merge` (resource.rs lines 58-65). -/
def Resource.internal_merge {T : Type} (self other : Resource T)
    (merge_values : T → T → T) : Resource T :=
  { api_version := self.api_version
    kind := self.kind
    metadata := merge_meta self.metadata other.metadata
    spec := merge_opt_values self.spec other.spec merge_values }

/-- Embeds `Resource<serde_json::Value>::merge` (resource.rs lines 79-81). -/
def Resource.merge (self other : Resource JValue) : Resource JValue :=
  self.internal_merge other JValue.merge_values

/-- Embeds `convert_number_to_json` (resource.rs lines 231-235) tries u64, then
i64, then f64.  With numbers modelled as `Int`, every number is exactly
representable, so the conversion always succeeds (the only failure in the
source is a non-finite float, which lies outside this model). -/
def convert_number_to_json (n : Int) : Option Int :=
  some n

/-- Embeds `convert_value_to_string` (resource.rs lines 237-247): map keys that
render to strings; anything but Bool/Number/String is dropped. -/
def YValue.convert_value_to_string : YValue → Option String
  | .bool b => some (toString b)
  | .number n => some (toString n)
  | .string s => some s
  | _ => none

/-- Embeds `Resource<serde_yaml::Value>::convert_value_to_json` (resource.rs lines
196-229), match arms in source order.  A sequence keeps exactly the
successfully converted elements (`filter_map`); a mapping entry is dropped
when its key does not render to a string or its value fails to convert;
Tagged always fails. -/
def YValue.convert_value_to_json : YValue → Option JValue
  | .bool b => some (.bool b)
  | .number n => (convert_number_to_json n).map fun m => .number m
  | .string s => some (.string s)
  | .sequence seq =>
      some (.array (seq.attach.filterMap fun v => YValue.convert_value_to_json v.val))
  | .mapping map =>
      some (.object (map.attach.foldl (fun acc p =>
        match YValue.convert_value_to_string p.val.1 with
        | some k =>
            match YValue.convert_value_to_json p.val.2 with
            | some v => ainsert acc k v
            | none => acc
        | none => acc) []))
  | .tagged _ _ => none
  | .null => some .null
  termination_by y => sizeOf y
  decreasing_by
  · have := List.sizeOf_lt_of_mem v.property
    simp only [YValue.sequence.sizeOf_spec]
    omega
  · obtain ⟨⟨k1, v1⟩, hp⟩ := p
    have := List.sizeOf_lt_of_mem hp
    simp only [YValue.mapping.sizeOf_spec, Prod.mk.sizeOf_spec] at this ⊢
    omega

/-- Embeds `Resource<serde_yaml::Value>::convert_to_json` (resource.rs lines
187-194). -/
def Resource.convert_to_json (self : Resource YValue) : Resource JValue :=
  { api_version := self.api_version
    kind := self.kind
    metadata := self.metadata
    spec := (self.spec.map YValue.convert_value_to_json).join }

/-- Embeds `Template` (templates.rs lines 5-8). -/
structure Template where
  resource : Resource JValue

/-- Embeds `Template::matches` (templates.rs lines 19-41), mirroring the source's
Option combinator chain (`map`/`flatten`/`unwrap_or`). -/
def Template.matches (t : Template) (resource : Resource JValue) : Bool :=
  (t.resource.api_version == resource.api_version) &&
  (t.resource.kind == resource.kind) &&
  ((t.resource.metadata.map fun meta =>
      ((meta.namespace_.map fun template_ns =>
          ((((resource.metadata.map fun rmeta => rmeta.namespace_).join).map
              fun rns => template_ns == rns).getD false)).getD true)
      &&
      ((meta.labels.map fun template_labels =>
          ((((resource.metadata.map fun rmeta => rmeta.labels).join).map
              fun rlabels =>
                template_labels.all fun p =>
                  alookup rlabels p.1 == some p.2).getD false)).getD true)
      &&
      ((meta.annotations.map fun template_annots =>
          ((((resource.metadata.map fun rmeta => rmeta.annotations).join).map
              fun rannots =>
                template_annots.all fun p =>
                  alookup rannots p.1 == some p.2).getD false)).getD true)
    ).getD true)

/-- Embeds `Template::apply_to` (templates.rs lines 12-17). -/
def Template.apply_to (t : Template) (resource : Resource JValue) :
    Option (Resource JValue) :=
  if t.matches resource then some (resource.merge t.resource) else none

/-- Embeds `Templates` (templates.rs lines 45-48). -/
structure Templates where
  templates : List Template

/-- Embeds `Templates::apply_to` (templates.rs lines 60-64):
`filter_map(apply_to).next()`. -/
def Templates.apply_to (ts : Templates) (target : Resource JValue) :
    Option (Resource JValue) :=
  (ts.templates.filterMap fun template => template.apply_to target).head?

theorem jvalue_merge_null_left (a : JValue) :
    JValue.merge_values .null a = a := by
  cases a <;> simp [JValue.merge_values]

theorem jvalue_merge_null_right : ∀ (a : JValue), JValue.merge_values a .null = a
  | .null => by simp [JValue.merge_values]
  | .bool b => by simp [JValue.merge_values]
  | .number n => by simp [JValue.merge_values]
  | .string s => by simp [JValue.merge_values]
  | .object kvs => by simp [JValue.merge_values]
  | .array vs => by
      rw [JValue.merge_values]
      · show JValue.construct_array_wrapper
            (vs.attach.map fun item => JValue.merge_values item.val .null) = .array vs
        unfold JValue.construct_array_wrapper
        congr 1
        calc vs.attach.map (fun item => JValue.merge_values item.val .null)
            = vs.attach.map (fun item => item.val) :=
              List.map_congr_left (fun item _ => jvalue_merge_null_right item.val)
          _ = vs := List.attach_map_subtype_val vs
      · intro vec2 h
        exact JValue.noConfusion h
  termination_by a => sizeOf a
  decreasing_by
  · have := List.sizeOf_lt_of_mem item.property
    simp only [JValue.array.sizeOf_spec]
    omega

theorem yvalue_merge_null_left (a : YValue) :
    YValue.merge_values .null a = a := by
  cases a <;> simp [YValue.merge_values]

theorem yvalue_merge_null_right (a : YValue) :
    YValue.merge_values a .null = a := by
  cases a <;> simp [YValue.merge_values]

theorem yvalue_merge_sequence_other (y1 : List YValue) (y : YValue)
    (hy1 : ∀ vs, y ≠ YValue.sequence vs) (hy2 : y ≠ YValue.null) :
    YValue.merge_values (.sequence y1) y = .sequence y1 := by
  cases y with
  | sequence vs => exact absurd rfl (hy1 vs)
  | null => exact absurd rfl hy2
  | bool b => simp [YValue.merge_values]
  | number n => simp [YValue.merge_values]
  | string s => simp [YValue.merge_values]
  | mapping kvs => simp [YValue.merge_values]
  | tagged t v => simp [YValue.merge_values]

theorem merge_object_maps_alookup {κ α : Type} [DecidableEq κ]
    (m1 m2 : List (κ × α)) (mv : α → α → α)
    (h1 : (m1.map Prod.fst).Nodup) (k : κ) :
    alookup (merge_object_maps m1 m2 mv) k =
      match alookup m1 k with
      | some v1 =>
          match alookup m2 k with
          | some v2 => some (mv v1 v2)
          | none => some v1
      | none => alookup m2 k := by
  unfold merge_object_maps
  rw [alookup_foldl_guarded]
  rw [show (m1.foldl (fun acc p =>
        ainsert acc p.1
          (((alookup m2 p.1).map fun v2 => mv p.2 v2).getD p.2)) [])
      = ((m1.map fun p =>
          (p.1, ((alookup m2 p.1).map fun v2 => mv p.2 v2).getD p.2)).foldl
          (fun acc q => ainsert acc q.1 q.2) []) from by
      rw [List.foldl_map]]
  have hkeys : ((m1.map fun p =>
      (p.1, ((alookup m2 p.1).map fun v2 => mv p.2 v2).getD p.2)).map
        Prod.fst).Nodup := by
    rw [List.map_map]
    exact h1
  rw [alookup_foldl_ainsert _ _ k hkeys]
  rw [alookup_map_entries m1
    (fun p => ((alookup m2 p.1).map fun v2 => mv p.2 v2).getD p.2) k]
  rw [alookup_eq_find m1 k]
  cases hf : m1.find? (fun p => decide (p.1 = k)) with
  | none => simp [alookup_nil]
  | some p0 =>
      have hk := find_key_eq hf
      show some ((Option.map (fun v2 => mv p0.2 v2) (alookup m2 p0.1)).getD p0.2) =
        match alookup m2 k with
        | some v2 => some (mv p0.2 v2)
        | none => some p0.2
      rw [hk]
      cases h2 : alookup m2 k <;> simp

/-- Variant discriminator of a JSON value (used to state which
type-pairings reach the catch-all merge arm). -/
def JValue.variantIdx : JValue → Nat
  | .null => 0
  | .bool _ => 1
  | .number _ => 2
  | .string _ => 3
  | .array _ => 4
  | .object _ => 5

/-- Variant discriminator of a YAML value. -/
def YValue.variantIdx : YValue → Nat
  | .null => 0
  | .bool _ => 1
  | .number _ => 2
  | .string _ => 3
  | .sequence _ => 4
  | .mapping _ => 5
  | .tagged _ _ => 6

/-- C5: in both value forms, merging a Sequence with a Sequence yields the
concatenation: all elements of the first in order followed by all elements
of the second in order (length adds; no element-wise merging). -/
theorem sequence_merge_concat :
    (∀ s1 s2 : List JValue,
      JValue.merge_values (.array s1) (.array s2) = .array (s1 ++ s2) ∧
      (s1 ++ s2).length = s1.length + s2.length) ∧
    (∀ s1 s2 : List YValue,
      YValue.merge_values (.sequence s1) (.sequence s2) = .sequence (s1 ++ s2) ∧
      (s1 ++ s2).length = s1.length + s2.length) := by
  constructor
  · intro s1 s2
    refine ⟨?_, by simp⟩
    rw [JValue.merge_values, merge_arrays_eq_append]
    rfl
  · intro s1 s2
    refine ⟨?_, by simp⟩
    rw [YValue.merge_values, merge_arrays_eq_append]
    rfl

/-- C6: in both value forms, Null is a two-sided identity of the merge:
merge(a, Null) = a and merge(Null, a) = a for every value a, including
sequences and mappings (in the JSON form the array-broadcast arm precedes
the Null arms, so merge(Array, Null) broadcasts Null into every element,
which still yields the array unchanged). -/
theorem merge_null_identity :
    (∀ a : JValue,
      JValue.merge_values a .null = a ∧ JValue.merge_values .null a = a) ∧
    (∀ a : YValue,
      YValue.merge_values a .null = a ∧ YValue.merge_values .null a = a) :=
  ⟨fun a => ⟨jvalue_merge_null_right a, jvalue_merge_null_left a⟩,
   fun a => ⟨yvalue_merge_null_right a, yvalue_merge_null_left a⟩⟩

/-- C9: the YAML-to-JSON conversion returns nothing on every Tagged value,
and converts every Sequence to some JSON array holding exactly the
successful conversions of its elements in original order. -/
theorem yaml_to_json_tagged_and_seq :
    (∀ (tag : String) (v : YValue),
      YValue.convert_value_to_json (.tagged tag v) = none) ∧
    (∀ vs : List YValue,
      YValue.convert_value_to_json (.sequence vs) =
        some (.array (vs.filterMap YValue.convert_value_to_json))) := by
  constructor
  · intro tag v
    simp [YValue.convert_value_to_json]
  · intro vs
    rw [YValue.convert_value_to_json]
    congr 2
    have h1 : (vs.attach.map Subtype.val).filterMap YValue.convert_value_to_json
        = vs.attach.filterMap fun v => YValue.convert_value_to_json v.val := by
      rw [List.filterMap_map]
      rfl
    rw [List.attach_map_subtype_val] at h1
    rw [← h1]

/-- C1 (amended): merging a Sequence first operand with a non-sequence,
non-null second operand broadcasts in the JSON form (same length, element i
equals merge(first[i], x)); in the YAML form there is no broadcast arm and
such a pair falls to the catch-all, returning the first operand unchanged. -/
theorem merge_broadcast_rule (a1 : List JValue) (x : JValue)
    (hx1 : ∀ vs, x ≠ JValue.array vs) (hx2 : x ≠ JValue.null)
    (y1 : List YValue) (y : YValue)
    (hy1 : ∀ vs, y ≠ YValue.sequence vs) (hy2 : y ≠ YValue.null) :
    JValue.merge_values (.array a1) x =
      .array (a1.map fun v => JValue.merge_values v x) ∧
    (a1.map fun v => JValue.merge_values v x).length = a1.length ∧
    (∀ (i : Nat) (h : i < a1.length),
      (a1.map fun v => JValue.merge_values v x).get ⟨i, by simpa using h⟩ =
        JValue.merge_values (a1.get ⟨i, h⟩) x) ∧
    YValue.merge_values (.sequence y1) y = .sequence y1 := by
  refine ⟨?_, by simp, ?_, yvalue_merge_sequence_other y1 y hy1 hy2⟩
  · rw [jvalue_merge_array_other a1 x hx1]
    unfold merge_value_into_array JValue.construct_array_wrapper
    rfl
  · intro i h
    simp [List.get_eq_getElem]

/-- C1 counterexample: in the YAML form, merging the sequence [Null] with
the string "a" does not broadcast (the result keeps element 0 = Null
instead of merge(Null, "a") = "a"). -/
theorem merge_broadcast_yaml_counterexample :
    YValue.merge_values (.sequence [.null]) (.string "a") ≠
      .sequence [YValue.merge_values .null (.string "a")] := by
  simp [YValue.merge_values]

/-- C1 witness: the JSON broadcast rule at a concrete input. -/
theorem merge_broadcast_rule_witness :
    JValue.merge_values (.array [.null, .bool true]) (.string "v") =
      .array [JValue.merge_values .null (.string "v"),
              JValue.merge_values (.bool true) (.string "v")] :=
  (merge_broadcast_rule [.null, .bool true] (.string "v")
    (fun vs h => JValue.noConfusion h) (fun h => JValue.noConfusion h)
    [.null] (.string "v")
    (fun vs h => YValue.noConfusion h) (fun h => YValue.noConfusion h)).1

/-- C7: in both value forms, a pairing of distinct non-null variants with a
non-sequence first operand (the pairs not covered by rules 1-6: e.g.
(Mapping, Sequence) or (String, Number)) reaches the catch-all arm, which
returns the first operand unchanged and discards the second; merge is a
total function, so it never fails the caller. -/
theorem merge_mismatch_fallback :
    (∀ a b : JValue, JValue.variantIdx a ≠ JValue.variantIdx b →
      a ≠ .null → b ≠ .null → (∀ vs, a ≠ JValue.array vs) →
      JValue.merge_values a b = a) ∧
    (∀ a b : YValue, YValue.variantIdx a ≠ YValue.variantIdx b →
      a ≠ .null → b ≠ .null → (∀ vs, a ≠ YValue.sequence vs) →
      YValue.merge_values a b = a) := by
  constructor
  · intro a b hv ha hb hs
    cases a <;> cases b <;>
      first
        | exact absurd rfl ha
        | exact absurd rfl hb
        | exact absurd rfl (hs _)
        | exact absurd rfl hv
        | simp [JValue.merge_values]
  · intro a b hv ha hb hs
    cases a <;> cases b <;>
      first
        | exact absurd rfl ha
        | exact absurd rfl hb
        | exact absurd rfl (hs _)
        | exact absurd rfl hv
        | simp [YValue.merge_values]

/-- C7 witness: a (String, Number) pair at a concrete input. -/
theorem merge_mismatch_fallback_witness :
    JValue.merge_values (.string "s") (.number 1) = .string "s" :=
  merge_mismatch_fallback.1 (.string "s") (.number 1)
    (by decide) (fun h => JValue.noConfusion h) (fun h => JValue.noConfusion h)
    (fun vs h => JValue.noConfusion h)

theorem filterMap_apply_to_head (l : List Template) (target : Resource JValue) :
    (l.filterMap fun t => t.apply_to target).head? =
      (l.find? fun t => t.matches target).map fun t => target.merge t.resource := by
  induction l with
  | nil => rfl
  | cons t rest ih =>
      rw [List.filterMap_cons, List.find?_cons]
      cases h : t.matches target
      · simp only [Template.apply_to, h]
        simpa using ih
      · simp [Template.apply_to, h]

/-- C2: applying the template list to a candidate returns the merge of the
candidate (first operand) with the first template in configured order whose
matches predicate succeeds, and returns nothing when no template matches;
at most one template is ever merged in (first-match-wins). -/
theorem templates_apply_first_match (ts : Templates) (target : Resource JValue) :
    Templates.apply_to ts target =
      ((ts.templates.find? fun t => t.matches target).map
        fun t => target.merge t.resource) ∧
    ((∀ t ∈ ts.templates, t.matches target = false) →
      Templates.apply_to ts target = none) := by
  constructor
  · exact filterMap_apply_to_head ts.templates target
  · intro hall
    show (ts.templates.filterMap fun t => t.apply_to target).head? = none
    rw [filterMap_apply_to_head ts.templates target]
    rw [List.find?_eq_none.mpr (fun t ht => by rw [hall t ht]; simp)]
    rfl

/-- C2 witness: with an empty template list, no template matches and the
application returns nothing. -/
theorem templates_apply_first_match_witness :
    Templates.apply_to { templates := [] }
      { api_version := "v1", kind := "Pod", metadata := none, spec := none } =
      none :=
  (templates_apply_first_match { templates := [] }
    { api_version := "v1", kind := "Pod", metadata := none, spec := none }).2
    (fun t ht => absurd ht (List.not_mem_nil t))

/-- C4: in both value forms, merging two Mappings yields a mapping whose
key set is the union of the two key sets; a key in both maps to the merge
of the two values, a key in only one maps to that side's value unchanged
(key uniqueness of the source map types taken as a Nodup hypothesis). -/
theorem mapping_merge_key_union :
    (∀ (m1 m2 : List (String × JValue)),
      (m1.map Prod.fst).Nodup → (m2.map Prod.fst).Nodup →
      ∃ M, JValue.merge_values (.object m1) (.object m2) = .object M ∧
        (∀ k, acontains M k = (acontains m1 k || acontains m2 k)) ∧
        (∀ k v1 v2, alookup m1 k = some v1 → alookup m2 k = some v2 →
          alookup M k = some (JValue.merge_values v1 v2)) ∧
        (∀ k v1, alookup m1 k = some v1 → alookup m2 k = none →
          alookup M k = some v1) ∧
        (∀ k, alookup m1 k = none → alookup M k = alookup m2 k)) ∧
    (∀ (m1 m2 : List (YValue × YValue)),
      (m1.map Prod.fst).Nodup → (m2.map Prod.fst).Nodup →
      ∃ M, YValue.merge_values (.mapping m1) (.mapping m2) = .mapping M ∧
        (∀ k, acontains M k = (acontains m1 k || acontains m2 k)) ∧
        (∀ k v1 v2, alookup m1 k = some v1 → alookup m2 k = some v2 →
          alookup M k = some (YValue.merge_values v1 v2)) ∧
        (∀ k v1, alookup m1 k = some v1 → alookup m2 k = none →
          alookup M k = some v1) ∧
        (∀ k, alookup m1 k = none → alookup M k = alookup m2 k)) := by
  constructor
  · intro m1 m2 h1 _h2
    refine ⟨merge_object_maps m1 m2 JValue.merge_values,
      jvalue_merge_object_object m1 m2, ?_, ?_, ?_, ?_⟩
    · intro k
      simp only [acontains]
      rw [merge_object_maps_alookup m1 m2 _ h1 k]
      cases ha : alookup m1 k <;> cases hb : alookup m2 k <;> simp
    · intro k v1 v2 ha hb
      rw [merge_object_maps_alookup m1 m2 _ h1 k, ha, hb]
    · intro k v1 ha hb
      rw [merge_object_maps_alookup m1 m2 _ h1 k, ha, hb]
    · intro k ha
      rw [merge_object_maps_alookup m1 m2 _ h1 k, ha]
  · intro m1 m2 h1 _h2
    refine ⟨merge_object_maps m1 m2 YValue.merge_values,
      yvalue_merge_mapping_mapping m1 m2, ?_, ?_, ?_, ?_⟩
    · intro k
      simp only [acontains]
      rw [merge_object_maps_alookup m1 m2 _ h1 k]
      cases ha : alookup m1 k <;> cases hb : alookup m2 k <;> simp
    · intro k v1 v2 ha hb
      rw [merge_object_maps_alookup m1 m2 _ h1 k, ha, hb]
    · intro k v1 ha hb
      rw [merge_object_maps_alookup m1 m2 _ h1 k, ha, hb]
    · intro k ha
      rw [merge_object_maps_alookup m1 m2 _ h1 k, ha]

/-- C4 witness: the JSON mapping merge characterization at a concrete pair
of objects sharing the key a. -/
theorem mapping_merge_key_union_witness :
    ∃ M, JValue.merge_values (.object [("a", JValue.number 1)])
        (.object [("a", JValue.number 2), ("b", JValue.bool true)]) =
          .object M ∧
      alookup M "a" = some (JValue.merge_values (.number 1) (.number 2)) ∧
      alookup M "b" = some (JValue.bool true) := by
  obtain ⟨M, hM, _hc, hboth, _hfirst, hnone⟩ :=
    mapping_merge_key_union.1 [("a", JValue.number 1)]
      [("a", JValue.number 2), ("b", JValue.bool true)]
      (by decide) (by decide)
  refine ⟨M, hM, hboth "a" _ _ rfl rfl, ?_⟩
  rw [hnone "b" rfl]
  rfl

/-- C8: resource merge copies apiVersion and kind from the first operand;
metadata is absent when neither side has it, verbatim from the single side
that has it otherwise, and when both sides have it the result takes name
and namespace from the first while labels and annotations are merged by
merge_maps, which is a key union in which the first side wins; spec obeys
the same optional-combination rule with the value merge applied when both
specs are present. -/
theorem resource_merge_characterization {T : Type} (mv : T → T → T)
    (r1 r2 : Resource T) :
    (r1.internal_merge r2 mv).api_version = r1.api_version ∧
    (r1.internal_merge r2 mv).kind = r1.kind ∧
    (r1.metadata = none → (r1.internal_merge r2 mv).metadata = r2.metadata) ∧
    (r2.metadata = none → (r1.internal_merge r2 mv).metadata = r1.metadata) ∧
    (∀ m1 m2, r1.metadata = some m1 → r2.metadata = some m2 →
      ∃ m, (r1.internal_merge r2 mv).metadata = some m ∧
        m.name = m1.name ∧
        m.namespace_ = m1.namespace_ ∧
        m.labels = merge_maps m1.labels m2.labels ∧
        m.annotations = merge_maps m1.annotations m2.annotations) ∧
    (∀ f, merge_maps (some f) none = some f) ∧
    (∀ s, merge_maps none s = s) ∧
    (∀ f s, (f.map Prod.fst).Nodup →
      ∃ L, merge_maps (some f) (some s) = some L ∧
        (∀ k, alookup L k =
          match alookup f k with
          | some v => some v
          | none => alookup s k) ∧
        (∀ k, acontains L k = (acontains f k || acontains s k))) ∧
    (r1.spec = none → (r1.internal_merge r2 mv).spec = r2.spec) ∧
    (r2.spec = none → (r1.internal_merge r2 mv).spec = r1.spec) ∧
    (∀ s1 s2, r1.spec = some s1 → r2.spec = some s2 →
      (r1.internal_merge r2 mv).spec = some (mv s1 s2)) := by
  refine ⟨rfl, rfl, ?_, ?_, ?_, ?_, ?_, ?_, ?_, ?_, ?_⟩
  · intro h
    show merge_meta r1.metadata r2.metadata = r2.metadata
    rw [h]
    rfl
  · intro h
    show merge_meta r1.metadata r2.metadata = r1.metadata
    rw [h]
    cases r1.metadata <;> rfl
  · intro m1 m2 h1 h2
    refine ⟨{ name := m1.name, namespace_ := m1.namespace_,
              labels := merge_maps m1.labels m2.labels,
              annotations := merge_maps m1.annotations m2.annotations },
            ?_, rfl, rfl, rfl, rfl⟩
    show merge_meta r1.metadata r2.metadata = _
    rw [h1, h2]
    rfl
  · intro f
    rfl
  · intro s
    rfl
  · intro f s hf
    refine ⟨f.foldl (fun acc p => ainsert acc p.1 p.2) s, ?_, ?_, ?_⟩
    · rfl
    · intro k
      rw [alookup_foldl_ainsert f s k hf]
      cases alookup f k <;> rfl
    · intro k
      simp only [acontains]
      rw [alookup_foldl_ainsert f s k hf]
      cases ha : alookup f k <;> cases hb : alookup s k <;> simp
  · intro h
    show merge_opt_values r1.spec r2.spec mv = r2.spec
    rw [h]
    rfl
  · intro h
    show merge_opt_values r1.spec r2.spec mv = r1.spec
    rw [h]
    cases r1.spec <;> rfl
  · intro s1 s2 h1 h2
    show merge_opt_values r1.spec r2.spec mv = some (mv s1 s2)
    rw [h1, h2]
    rfl

/-- C8 witness: the characterization at a concrete pair of resources with
metadata on both sides. -/
theorem resource_merge_characterization_witness :
    ∃ m, (Resource.internal_merge
        { api_version := "v1", kind := "Pod",
          metadata := some { name := some "n1", namespace_ := some "ns1",
                             labels := some [("a", "1")], annotations := none },
          spec := (none : Option JValue) }
        { api_version := "v2", kind := "Dep",
          metadata := some { name := some "n2", namespace_ := some "ns2",
                             labels := some [("a", "2"), ("b", "3")],
                             annotations := none },
          spec := none }
        JValue.merge_values).metadata = some m ∧
      m.name = some "n1" ∧ m.namespace_ = some "ns1" := by
  obtain ⟨c1, c2, c3, c4, c5, c6, c7, c8, c9, c10, c11⟩ :=
    resource_merge_characterization (T := JValue) JValue.merge_values
      { api_version := "v1", kind := "Pod",
        metadata := some { name := some "n1", namespace_ := some "ns1",
                           labels := some [("a", "1")], annotations := none },
        spec := none }
      { api_version := "v2", kind := "Dep",
        metadata := some { name := some "n2", namespace_ := some "ns2",
                           labels := some [("a", "2"), ("b", "3")],
                           annotations := none },
        spec := none }
  obtain ⟨m, hm, hname, hns, _⟩ := c5 _ _ rfl rfl
  exact ⟨m, hm, hname, hns⟩

/-- C10: a template whose metadata holds a present-but-empty labels (or
annotations) map fails to match a candidate with matching apiVersion and
kind whose metadata lacks that map entirely, even though the empty selector
map imposes no key/value requirement on a candidate that does have such a
map. -/
theorem empty_selector_requires_candidate_map (t : Template)
    (r : Resource JValue) (meta : ObjectMeta)
    (hmeta : t.resource.metadata = some meta)
    (hapi : t.resource.api_version = r.api_version)
    (hkind : t.resource.kind = r.kind) :
    (meta.labels = some ([] : MapType) →
      (r.metadata.map fun rm => rm.labels).join = none →
      Template.matches t r = false) ∧
    (meta.annotations = some ([] : MapType) →
      (r.metadata.map fun rm => rm.annotations).join = none →
      Template.matches t r = false) ∧
    (meta.namespace_ = none → meta.labels = some ([] : MapType) →
      meta.annotations = none →
      (∃ rl, (r.metadata.map fun rm => rm.labels).join = some rl) →
      Template.matches t r = true) := by
  refine ⟨?_, ?_, ?_⟩
  · intro hlab habs
    unfold Template.matches
    rw [hmeta]
    cases hrm : r.metadata with
    | none => simp [hlab]
    | some rm =>
        rw [hrm] at habs
        simp at habs
        simp [hlab, habs]
  · intro hann habs
    unfold Template.matches
    rw [hmeta]
    cases hrm : r.metadata with
    | none => simp [hann]
    | some rm =>
        rw [hrm] at habs
        simp at habs
        simp [hann, habs]
  · intro hns hlab hann hrl
    obtain ⟨rl, hrl⟩ := hrl
    unfold Template.matches
    rw [hmeta]
    cases hrm : r.metadata with
    | none =>
        rw [hrm] at hrl
        simp at hrl
    | some rm =>
        rw [hrm] at hrl
        simp at hrl
        simp [hns, hlab, hann, hrl, hapi, hkind]

/-- An empty-labels-selector template used by the C10 witness. -/
def emptyLabelsTemplate : Template :=
  { resource :=
      { api_version := "v1"
        kind := "Pod"
        metadata := some
          { name := none
            namespace_ := none
            labels := some []
            annotations := none }
        spec := none } }

/-- A candidate without a labels map, used by the C10 witness. -/
def noLabelsCandidate : Resource JValue :=
  { api_version := "v1"
    kind := "Pod"
    metadata := some
      { name := none
        namespace_ := none
        labels := none
        annotations := none }
    spec := none }

/-- C10 witness: concrete template with an empty labels selector against a
candidate without a labels map. -/
theorem empty_selector_requires_candidate_map_witness :
    Template.matches emptyLabelsTemplate noLabelsCandidate = false :=
  (empty_selector_requires_candidate_map emptyLabelsTemplate noLabelsCandidate
    { name := none, namespace_ := none, labels := some [], annotations := none }
    rfl rfl rfl).1 rfl rfl

/-- The template-matching predicate exactly as worded in the specification
(section 4.4): apiVersion and kind must be equal; a template without
metadata matches; a populated namespace selector requires an equal
candidate namespace; populated labels / annotations selectors require
every template pair to be present with an equal value in the candidate's
map (absent candidate map = non-match); all populated selectors are
combined by logical AND.  Compared against the source-derived
`Template.matches` in the C3 theorem. -/
def matchesSpec (t : Template) (r : Resource JValue) : Prop :=
  t.resource.api_version = r.api_version ∧
  t.resource.kind = r.kind ∧
  (∀ meta, t.resource.metadata = some meta →
    (∀ n, meta.namespace_ = some n →
      ∃ rns, (r.metadata.map fun rm => rm.namespace_).join = some rns ∧ n = rns) ∧
    (∀ tl, meta.labels = some tl →
      ∃ rl, (r.metadata.map fun rm => rm.labels).join = some rl ∧
        ∀ p ∈ tl, alookup rl p.1 = some p.2) ∧
    (∀ ta, meta.annotations = some ta →
      ∃ ra, (r.metadata.map fun rm => rm.annotations).join = some ra ∧
        ∀ p ∈ ta, alookup ra p.1 = some p.2))

theorem selector_ns_iff (tns cns : Option String) :
    ((tns.map fun template_ns =>
        ((cns.map fun rns => template_ns == rns).getD false)).getD true) = true ↔
      (∀ n, tns = some n → ∃ rns, cns = some rns ∧ n = rns) := by
  cases tns with
  | none => simp
  | some n =>
      cases cns with
      | none => simp
      | some rns => simp

theorem selector_map_iff (tm cm : Option MapType) :
    ((tm.map fun template_labels =>
        ((cm.map fun rlabels =>
            template_labels.all fun p =>
              alookup rlabels p.1 == some p.2).getD false)).getD true) = true ↔
      (∀ tl, tm = some tl →
        ∃ rl, cm = some rl ∧ ∀ p ∈ tl, alookup rl p.1 = some p.2) := by
  cases tm with
  | none => simp
  | some tl =>
      cases cm with
      | none => simp
      | some rl => simp [List.all_eq_true]

/-- C3: the source matching predicate agrees exactly with the
specification's description: false unless apiVersion and kind are equal;
true when the template has no metadata; otherwise the conjunction of the
populated selector requirements, where an absent candidate map is a
non-match for a required labels/annotations selector. -/
theorem template_matches_characterization (t : Template) (r : Resource JValue) :
    Template.matches t r = true ↔ matchesSpec t r := by
  unfold Template.matches matchesSpec
  simp only [Bool.and_eq_true, beq_iff_eq]
  rw [and_assoc]
  apply and_congr_right
  intro _
  apply and_congr_right
  intro _
  cases hm : t.resource.metadata with
  | none => simp
  | some meta =>
      simp only [Option.map_some', Option.getD_some, Bool.and_eq_true]
      rw [and_assoc]
      rw [selector_ns_iff meta.namespace_
        ((r.metadata.map fun rmeta => rmeta.namespace_).join)]
      rw [selector_map_iff meta.labels
        ((r.metadata.map fun rmeta => rmeta.labels).join)]
      rw [selector_map_iff meta.annotations
        ((r.metadata.map fun rmeta => rmeta.annotations).join)]
      constructor
      · intro h m2 hm2
        cases Option.some.inj hm2
        exact h
      · intro h
        exact h meta rfl

/-- C3 witness: a template without metadata matches a candidate with equal
apiVersion and kind. -/
theorem template_matches_characterization_witness :
    Template.matches
      { resource :=
          { api_version := "v1"
            kind := "Pod"
            metadata := none
            spec := none } }
      noLabelsCandidate = true :=
  (template_matches_characterization
    { resource :=
        { api_version := "v1"
          kind := "Pod"
          metadata := none
          spec := none } }
    noLabelsCandidate).mpr
    ⟨rfl, rfl, fun meta h => Option.noConfusion h⟩
